import Mathlib

/-!
Verification of the Modsync change-detection-and-reconciliation engine.

This file is a shallow embedding of the Python sources
src/core/sync_engine.py and src/core/metadata_db.py, together with
the posixpath primitives they call (os.path.join, os.path.relpath,
os.path.basename, os.path.dirname modelled for POSIX paths).
Paths are plain strings, as in the source.  File contents are byte
lists; stat information (mtime, size) is carried alongside.  Fallible
filesystem operations are modelled with an explicit failure oracle
and a raised-exception flag, mirroring the try/except structure of
the source.
-/

set_option autoImplicit false

namespace Modsync

/-! ### posixpath primitives used by the engine -/

/-- Python str.startswith: the second string is a prefix of the first.
Implemented over character lists so that the kernel can evaluate it. -/
def listIsPrefix : List Char → List Char → Bool
  | [], _ => true
  | _ :: _, [] => false
  | a :: as, b :: bs => if a = b then listIsPrefix as bs else false

/-- Python s.startswith(pre). -/
def strStartsWith (s pre : String) : Bool :=
  listIsPrefix pre.toList s.toList

/-- Python s.endswith(suf). -/
def strEndsWith (s suf : String) : Bool :=
  listIsPrefix suf.toList.reverse s.toList.reverse

/-- Python s[1:]. -/
def strDropOne (s : String) : String :=
  String.mk (s.toList.drop 1)

/-- Python s[:-1]. -/
def strDropLastOne (s : String) : String :=
  String.mk s.toList.dropLast

/-- Python s.split(sep) for a one-character separator, character-list
form: splitting on the slash. -/
def splitSlash : List Char → List (List Char)
  | [] => [[]]
  | c :: rest =>
    if c = '/' then [] :: splitSlash rest
    else
      match splitSlash rest with
      | [] => [[c]]
      | g :: gs => (c :: g) :: gs

/-- The non-empty slash-separated components of a path,
[x for x in p.split(sep) if x] in posixpath.relpath. -/
def pathComponents (s : String) : List String :=
  ((splitSlash s.toList).filter (fun g => g ≠ [])).map String.mk

/-- sep.join(parts) for the slash separator. -/
def intercalateSlash : List String → String
  | [] => ""
  | [x] => x
  | x :: rest => x ++ "/" ++ intercalateSlash rest

/-- Characters of a string up to and including the last slash,
the list form of p[:p.rfind(sep)+1] in posixpath. -/
def upToLastSlash : List Char → List Char
  | [] => []
  | c :: rest =>
    if rest.contains '/' then c :: upToLastSlash rest
    else if c = '/' then [c] else []

/-- Characters of a string after the last slash,
the list form of p[p.rfind(sep)+1:] in posixpath. -/
def afterLastSlash : List Char → List Char
  | [] => []
  | c :: rest =>
    if rest.contains '/' then afterLastSlash rest
    else if c = '/' then rest else c :: rest

/-- Drop trailing slash characters (str.rstrip applied to the separator). -/
def rstripSlash (cs : List Char) : List Char :=
  (cs.reverse.dropWhile (fun c => c = '/')).reverse

/-- os.path.basename for POSIX paths: everything after the last slash. -/
def basename (p : String) : String :=
  String.mk (afterLastSlash p.toList)

/-- os.path.dirname for POSIX paths: everything up to the last slash,
with trailing slashes stripped unless the head consists only of slashes. -/
def dirname (p : String) : String :=
  let head := upToLastSlash p.toList
  if head ≠ [] ∧ head.any (fun c => c ≠ '/') then String.mk (rstripSlash head)
  else String.mk head

/-- os.path.join for POSIX paths, two arguments: an absolute second
argument replaces the first, otherwise the two are glued with one slash. -/
def joinPath (a b : String) : String :=
  if strStartsWith b "/" then b
  else if a = "" ∨ strEndsWith a "/" then a ++ b
  else a ++ "/" ++ b

/-- Length of the longest common prefix of two lists
(genericpath.commonprefix on path-component lists). -/
def commonPrefixLen : List String → List String → Nat
  | a :: as, b :: bs => if a = b then commonPrefixLen as bs + 1 else 0
  | _, _ => 0

/-- os.path.relpath for POSIX paths already in absolute normal form
(the engine only ever passes such paths): split both arguments into
non-empty components, drop the common prefix, and prefix one ".." per
remaining component of the start path. -/
def relpath (path start : String) : String :=
  let pl := pathComponents path
  let sl := pathComponents start
  let i := commonPrefixLen sl pl
  let rel := List.replicate (sl.length - i) ".." ++ pl.drop i
  if rel = [] then "." else intercalateSlash rel

/-! ### Configuration (spec section 6 shape, consumed by SyncEngine) -/

/-- One entry of the sync_directories configuration list. -/
structure DirConfig where
  local_path : String
  remote_path : String
  exclude_patterns : List String
deriving DecidableEq, Repr

/-- The configuration consumed by SyncEngine: server.mount_point and
the sync_directories list. -/
structure Config where
  mount_point : String
  sync_directories : List DirConfig
deriving DecidableEq, Repr

/-! ### SyncEngine._get_remote_path (src/core/sync_engine.py lines 29-40) -/

/-- Loop body of SyncEngine._get_remote_path: scan the configured
directories in order; the first one whose local_path is a string
prefix of the argument wins, and the result is
join(join(mount_point, remote_path), relpath(local_path, local_dir)). -/
def findRemote (mount : String) (ds : List DirConfig) (localPath : String) :
    Option String :=
  match ds with
  | [] => none
  | d :: rest =>
    if strStartsWith localPath d.local_path then
      some (joinPath (joinPath mount d.remote_path) (relpath localPath d.local_path))
    else findRemote mount rest localPath

/-- SyncEngine._get_remote_path: convert a local path to its remote
counterpart, None when no configured directory matches. -/
def getRemotePath (cfg : Config) (localPath : String) : Option String :=
  findRemote cfg.mount_point cfg.sync_directories localPath

/-! ### SyncEngine._should_sync_file (src/core/sync_engine.py lines 42-59) -/

/-- One exclude-pattern test from SyncEngine._should_sync_file: a
pattern beginning with * matches filenames ending with the remainder,
otherwise a pattern ending with * matches filenames starting with the
remainder, otherwise the pattern matches only the exact filename. -/
def patternExcludes (pattern filename : String) : Bool :=
  if strStartsWith pattern "*" then strEndsWith filename (strDropOne pattern)
  else if strEndsWith pattern "*" then strStartsWith filename (strDropLastOne pattern)
  else pattern = filename

/-- SyncEngine._should_sync_file: the basename of the path is tested
against the exclude_patterns of every configured directory; the file
is synced when no pattern matches. -/
def shouldSyncFile (cfg : Config) (filePath : String) : Bool :=
  let filename := basename filePath
  !(cfg.sync_directories.any (fun d =>
      d.exclude_patterns.any (fun pat => patternExcludes pat filename)))

/-! ### Filesystem and store state

Local and remote files live in one namespace of absolute path strings,
exactly as the Python process sees them.  An association list keyed by
path models the file map, another one the metadata rows, and a list of
makedirs targets records created directories. -/

/-- Content and stat information of one file: byte list and mtime.
The size reported by os.stat is the byte length of the content. -/
structure FileData where
  content : List Nat
  mtime : Int
deriving DecidableEq, Repr

/-- One row of the files table of MetadataDB
(src/core/metadata_db.py lines 26-36), keyed externally by path. -/
structure FileRecord where
  modified_time : Int
  size : Nat
  last_synced : Int
  sync_status : String
deriving DecidableEq, Repr

/-- First-match lookup in an association list keyed by path. -/
def lookupA {α : Type} : List (String × α) → String → Option α
  | [], _ => none
  | (k, v) :: rest, p => if k = p then some v else lookupA rest p

/-- Remove every entry for a key from an association list. -/
def removeA {α : Type} (l : List (String × α)) (k : String) : List (String × α) :=
  l.filter (fun e => e.1 ≠ k)

/-- Insert-or-overwrite an entry in an association list. -/
def insertA {α : Type} (l : List (String × α)) (k : String) (v : α) :
    List (String × α) :=
  (k, v) :: removeA l k

/-- The mutable state handled by the engine: the file map, the set of
directories created so far, and the metadata rows.  The engine of the
source never reads or writes the metadata rows; the field records that
fact in the theorems below. -/
structure World where
  files : List (String × FileData)
  dirs : List String
  db : List (String × FileRecord)
deriving DecidableEq, Repr

/-- Failure oracle for the fallible filesystem calls: a call fails
exactly when its target path is listed (modelling the OSError cases
the try/except blocks of the source are written for). -/
structure FailSet where
  mkdirFails : List String
  copyFails : List String
  removeFails : List String
  moveFails : List String
deriving DecidableEq, Repr

/-- The oracle under which every filesystem call succeeds. -/
def noFail : FailSet := ⟨[], [], [], []⟩

/-- Sequencing with the raised-exception flag: once an operation has
raised, the rest of the straight-line block is skipped and the flag
propagates, while the state reached so far persists (Python exceptions
do not roll back earlier side effects). -/
def andThen (r : World × Bool) (f : World → World × Bool) : World × Bool :=
  if r.2 then r else f r.1

/-- os.makedirs(d, exist_ok=True): records the target directory, or
raises according to the oracle. -/
def makedirsOp (fails : FailSet) (d : String) (w : World) : World × Bool :=
  if fails.mkdirFails.contains d then (w, true)
  else ({w with dirs := d :: w.dirs}, false)

/-- shutil.copy2(src, dst): copies content and mtime, overwriting dst;
raises when src does not exist or when the oracle fails dst. -/
def copy2Op (fails : FailSet) (src dst : String) (w : World) : World × Bool :=
  match lookupA w.files src with
  | none => (w, true)
  | some fd =>
    if fails.copyFails.contains dst then (w, true)
    else ({w with files := insertA w.files dst fd}, false)

/-- os.remove(p): deletes the file, or raises according to the oracle. -/
def removeOp (fails : FailSet) (p : String) (w : World) : World × Bool :=
  if fails.removeFails.contains p then (w, true)
  else ({w with files := removeA w.files p}, false)

/-- shutil.move(src, dst): removes src and writes its data at dst;
raises when src does not exist or when the oracle fails dst. -/
def moveOp (fails : FailSet) (src dst : String) (w : World) : World × Bool :=
  match lookupA w.files src with
  | none => (w, true)
  | some fd =>
    if fails.moveFails.contains dst then (w, true)
    else ({w with files := insertA (removeA w.files src) dst fd}, false)

/-! ### SyncEngine.sync_file (src/core/sync_engine.py lines 61-96) -/

/-- The four action strings dispatched by sync_file. -/
inductive Action where
  | created
  | modified
  | deleted
  | moved
deriving DecidableEq, Repr

/-- Line 67 of sync_engine.py: remote_path is dest_path when that is
truthy (a non-empty string), else _get_remote_path(file_path); line 68
then drops the event when the result is falsy (absent or empty). -/
def resolveRemote (cfg : Config) (filePath : String) (destPath : Option String) :
    Option String :=
  let rp : Option String :=
    match destPath with
    | some d => if d = "" then getRemotePath cfg filePath else some d
    | none => getRemotePath cfg filePath
  match rp with
  | some s => if s = "" then none else some s
  | none => none

/-- The try-block of sync_file (lines 72-94), acting on the already
resolved remote_path rp.  created/modified: makedirs of the parent,
then copy2.  deleted: os.remove only when the remote file exists.
moved: when dest_path is truthy and _get_remote_path(dest_path) is
truthy, makedirs of the destination parent then shutil.move from rp,
which at this point holds dest_path itself, the local destination. -/
def syncFileBody (cfg : Config) (fails : FailSet) (action : Action)
    (filePath : String) (destPath : Option String) (rp : String) (w : World) :
    World × Bool :=
  match action with
  | .created =>
    andThen (makedirsOp fails (dirname rp) w) (fun w1 => copy2Op fails filePath rp w1)
  | .modified =>
    andThen (makedirsOp fails (dirname rp) w) (fun w1 => copy2Op fails filePath rp w1)
  | .deleted =>
    if (lookupA w.files rp).isSome then removeOp fails rp w else (w, false)
  | .moved =>
    match destPath with
    | none => (w, false)
    | some d =>
      if d = "" then (w, false)
      else
        match getRemotePath cfg d with
        | none => (w, false)
        | some rd =>
          if rd = "" then (w, false)
          else andThen (makedirsOp fails (dirname rd) w)
            (fun w1 => moveOp fails rp rd w1)

/-- SyncEngine.sync_file: excluded files are skipped, an unresolvable
remote path drops the event, and the whole action body runs inside
try/except, so a raised operation is caught and the state reached so
far is kept.  The metadata rows are never touched: the engine's
metadata_db attribute is an unused placeholder dictionary. -/
def sync_file (cfg : Config) (fails : FailSet) (action : Action)
    (filePath : String) (destPath : Option String) (w : World) : World :=
  if !(shouldSyncFile cfg filePath) then w
  else
    match resolveRemote cfg filePath destPath with
    | none => w
    | some rp => (syncFileBody cfg fails action filePath destPath rp w).1

/-! ### MetadataDB (src/core/metadata_db.py) -/

/-- MetadataDB.delete_file_metadata (lines 82-95): DELETE FROM files
WHERE path = the argument. -/
def delete_file_metadata (db : List (String × FileRecord)) (p : String) :
    List (String × FileRecord) :=
  removeA db p

/-- MetadataDB.get_file_metadata (lines 97-122): point lookup of the
row for the path, None when absent. -/
def get_file_metadata (db : List (String × FileRecord)) (p : String) :
    Option FileRecord :=
  lookupA db p

/-- MetadataDB.update_file_metadata (lines 45-80).  When the file is
missing the record is deleted.  Otherwise the function stats the file
and evaluates time.time() for the last_synced column, but the time
module is never imported in metadata_db.py, so a NameError is raised
before either SQL statement runs; the surrounding except block catches
and logs it, and the store is left unchanged. -/
def update_file_metadata (fs : List (String × FileData))
    (db : List (String × FileRecord)) (p : String) : List (String × FileRecord) :=
  match lookupA fs p with
  | none => delete_file_metadata db p
  | some _ => db

/-- MetadataDB.needs_sync (lines 124-134): False when the file does
not exist on disk; True when it exists without a row; otherwise True
exactly when the live mtime is strictly greater than the recorded one
or the live size differs from the recorded one. -/
def needs_sync (fs : List (String × FileData))
    (db : List (String × FileRecord)) (p : String) : Bool :=
  match lookupA fs p with
  | none => false
  | some fd =>
    match get_file_metadata db p with
    | none => true
    | some r => decide (r.modified_time < fd.mtime) || decide (fd.content.length ≠ r.size)

/-! ### SyncEngine.sync_directory and full_sync
(src/core/sync_engine.py lines 98-138)

os.walk is an external library facility; its output for a walked root
is taken as input: one entry per visited directory, in walk order,
holding the directory's absolute path and the names of its
subdirectories and files.  full_sync's os.path.exists check on each
configured local root is modelled by presence of the root in the walk
table. -/

/-- One (root, dirs, files) triple yielded by os.walk. -/
structure WalkEntry where
  root : String
  dirs : List String
  files : List String
deriving DecidableEq, Repr

/-- Lines 108-112 of sync_engine.py: for each subdirectory name of the
entry, create the corresponding remote directory.  These makedirs
calls are not wrapped in any try/except, so a raised call propagates
and the rest of the loop is skipped. -/
def syncEntryDirs (fails : FailSet) (localDir remoteDir root : String)
    (ds : List String) (w : World) : World × Bool :=
  match ds with
  | [] => (w, false)
  | name :: rest =>
    let localPath := joinPath root name
    let rp := joinPath remoteDir (relpath localPath localDir)
    andThen (makedirsOp fails rp w) (syncEntryDirs fails localDir remoteDir root rest)

/-- Lines 114-120 of sync_engine.py: for each file name of the entry,
when it passes _should_sync_file, call sync_file('created', local
path, explicit remote destination).  Nothing here can raise: all
fallible work happens inside sync_file's try/except. -/
def syncEntryFiles (cfg : Config) (fails : FailSet)
    (localDir remoteDir root : String) (names : List String) (w : World) : World :=
  match names with
  | [] => w
  | name :: rest =>
    let localPath := joinPath root name
    let w1 :=
      if shouldSyncFile cfg localPath then
        sync_file cfg fails .created localPath
          (some (joinPath remoteDir (relpath localPath localDir))) w
      else w
    syncEntryFiles cfg fails localDir remoteDir root rest w1

/-- The os.walk loop of sync_directory (lines 106-120): per entry,
first the subdirectory creations (unwrapped), then the file syncs. -/
def syncEntries (cfg : Config) (fails : FailSet) (localDir remoteDir : String)
    (es : List WalkEntry) (w : World) : World × Bool :=
  match es with
  | [] => (w, false)
  | e :: rest =>
    andThen (syncEntryDirs fails localDir remoteDir e.root e.dirs w)
      (fun w1 =>
        syncEntries cfg fails localDir remoteDir rest
          (syncEntryFiles cfg fails localDir remoteDir e.root e.files w1))

/-- SyncEngine.sync_directory (lines 98-120): create the remote root
(line 103, also unwrapped), then process the walk entries. -/
def sync_directory (cfg : Config) (fails : FailSet) (walk : List WalkEntry)
    (localDir remoteDir : String) (w : World) : World × Bool :=
  andThen (makedirsOp fails remoteDir w) (syncEntries cfg fails localDir remoteDir walk)

/-- The loop of SyncEngine.full_sync over the configured directories
(lines 126-136): mappings whose local root does not exist are skipped
with a warning; full_sync itself has no try/except, so an exception
raised inside sync_directory aborts the remaining mappings too. -/
def fullSyncGo (cfg : Config) (fails : FailSet)
    (walkOf : List (String × List WalkEntry)) (ds : List DirConfig) (w : World) :
    World × Bool :=
  match ds with
  | [] => (w, false)
  | d :: rest =>
    match lookupA walkOf d.local_path with
    | some walk =>
      andThen
        (sync_directory cfg fails walk d.local_path
          (joinPath cfg.mount_point d.remote_path) w)
        (fullSyncGo cfg fails walkOf rest)
    | none => fullSyncGo cfg fails walkOf rest w

/-- SyncEngine.full_sync (lines 122-138). -/
def full_sync (cfg : Config) (fails : FailSet)
    (walkOf : List (String × List WalkEntry)) (w : World) : World × Bool :=
  fullSyncGo cfg fails walkOf cfg.sync_directories w

/-! ### Spec-side predicate for the exclusion policy

Written from the words of the specification, to be compared with the
source-derived shouldSyncFile. -/

/-- The specification's description of one exclude pattern: a pattern
beginning with an asterisk excludes filenames ending with the
remainder, a pattern ending with an asterisk excludes filenames
starting with the remainder, and any other pattern excludes only on
exact filename equality. -/
def ExcludesP (pattern filename : String) : Prop :=
  (strStartsWith pattern "*" = true ∧ strEndsWith filename (strDropOne pattern) = true) ∨
  (strStartsWith pattern "*" = false ∧ strEndsWith pattern "*" = true ∧
    strStartsWith filename (strDropLastOne pattern) = true) ∨
  (strStartsWith pattern "*" = false ∧ strEndsWith pattern "*" = false ∧
    pattern = filename)

/-! ### Write-list view of the full-sync pass

full_sync under the all-success oracle performs a sequence of mkdir
and file-write effects that depends on the state only through the
contents of the walked local files.  The list of these effects, as a
function of an initial file map, drives the idempotence proof. -/

/-- One effect of the full-sync pass on the state. -/
inductive Op where
  | mkdir (d : String)
  | write (p : String) (fd : FileData)
deriving DecidableEq, Repr

/-- Apply one effect. -/
def applyOp (w : World) : Op → World
  | .mkdir d => {w with dirs := d :: w.dirs}
  | .write p fd => {w with files := insertA w.files p fd}

/-- Apply a list of effects left to right. -/
def applyOps : List Op → World → World
  | [], w => w
  | op :: rest, w => applyOps rest (applyOp w op)

/-- The value of the last write to a path in an effect list, if any. -/
def lastWrite : List Op → String → Option FileData
  | [], _ => none
  | Op.write q fd :: rest, p =>
    (match lastWrite rest p with
     | some r => some r
     | none => if q = p then some fd else none)
  | Op.mkdir _ :: rest, p => lastWrite rest p

/-- The mkdir targets of an effect list. -/
def mkdirsOf : List Op → List String
  | [] => []
  | Op.mkdir d :: rest => d :: mkdirsOf rest
  | Op.write _ _ :: rest => mkdirsOf rest

/-- Effects of one sync_file('created', lp, dp) call under the
all-success oracle, reading the copied data from the file map f0. -/
def createdOps (cfg : Config) (f0 : List (String × FileData))
    (lp : String) (dp : Option String) : List Op :=
  if shouldSyncFile cfg lp then
    match resolveRemote cfg lp dp with
    | none => []
    | some rp =>
      match lookupA f0 lp with
      | none => [Op.mkdir (dirname rp)]
      | some fd => [Op.mkdir (dirname rp), Op.write rp fd]
  else []

/-- Effects of the file loop of one walk entry. -/
def entryFileOps (cfg : Config) (f0 : List (String × FileData))
    (localDir remoteDir root : String) : List String → List Op
  | [] => []
  | name :: rest =>
    let lp := joinPath root name
    (if shouldSyncFile cfg lp then
      createdOps cfg f0 lp (some (joinPath remoteDir (relpath lp localDir)))
    else []) ++ entryFileOps cfg f0 localDir remoteDir root rest

/-- Effects of the subdirectory loop of one walk entry. -/
def entryDirOps (localDir remoteDir root : String) (ds : List String) : List Op :=
  ds.map (fun name => Op.mkdir (joinPath remoteDir (relpath (joinPath root name) localDir)))

/-- Effects of the walk loop of sync_directory. -/
def walkOps (cfg : Config) (f0 : List (String × FileData))
    (localDir remoteDir : String) : List WalkEntry → List Op
  | [] => []
  | e :: rest =>
    entryDirOps localDir remoteDir e.root e.dirs
      ++ entryFileOps cfg f0 localDir remoteDir e.root e.files
      ++ walkOps cfg f0 localDir remoteDir rest

/-- Effects of the whole full-sync pass. -/
def fullOps (cfg : Config) (f0 : List (String × FileData))
    (walkOf : List (String × List WalkEntry)) : List DirConfig → List Op
  | [] => []
  | d :: rest =>
    (match lookupA walkOf d.local_path with
     | some walk =>
       Op.mkdir (joinPath cfg.mount_point d.remote_path)
         :: walkOps cfg f0 d.local_path (joinPath cfg.mount_point d.remote_path) walk
     | none => []) ++ fullOps cfg f0 walkOf rest

/-- The local paths read by the file loop of one walk entry. -/
def entryReadPaths (root : String) (names : List String) : List String :=
  names.map (joinPath root)

/-- The local paths read across a walk. -/
def walkReadPaths : List WalkEntry → List String
  | [] => []
  | e :: rest => entryReadPaths e.root e.files ++ walkReadPaths rest

/-- The local paths read across the whole full-sync pass: every walked
file of every mapping whose root is present. -/
def fullReadPaths (walkOf : List (String × List WalkEntry)) :
    List DirConfig → List String
  | [] => []
  | d :: rest =>
    (match lookupA walkOf d.local_path with
     | some walk => walkReadPaths walk
     | none => []) ++ fullReadPaths walkOf rest

/-- The remote path a walked file would be written to, when its
destination resolves (a superset of the writes actually performed). -/
def fileWriteTarget (cfg : Config) (localDir remoteDir lp : String) : List String :=
  match resolveRemote cfg lp (some (joinPath remoteDir (relpath lp localDir))) with
  | some rp => [rp]
  | none => []

/-- Candidate write targets of the file loop of one walk entry. -/
def entryWritePaths (cfg : Config) (localDir remoteDir root : String) :
    List String → List String
  | [] => []
  | name :: rest =>
    fileWriteTarget cfg localDir remoteDir (joinPath root name)
      ++ entryWritePaths cfg localDir remoteDir root rest

/-- Candidate write targets across a walk. -/
def walkWritePaths (cfg : Config) (localDir remoteDir : String) :
    List WalkEntry → List String
  | [] => []
  | e :: rest =>
    entryWritePaths cfg localDir remoteDir e.root e.files
      ++ walkWritePaths cfg localDir remoteDir rest

/-- Candidate write targets across the whole full-sync pass. -/
def fullWritePaths (cfg : Config) (walkOf : List (String × List WalkEntry)) :
    List DirConfig → List String
  | [] => []
  | d :: rest =>
    (match lookupA walkOf d.local_path with
     | some walk =>
       walkWritePaths cfg d.local_path (joinPath cfg.mount_point d.remote_path) walk
     | none => []) ++ fullWritePaths cfg walkOf rest

/-- Agreement of a world's file map with a reference map on a set of
paths; the invariant that the walked local files are not disturbed by
the remote writes. -/
def Agrees (R : List String) (f0 : List (String × FileData)) (w : World) : Prop :=
  ∀ p, p ∈ R → lookupA w.files p = lookupA f0 p

/-! ### Concrete fixtures used by the counterexamples and witnesses -/

/-- A file living under the remote mount in the fixtures. -/
def fdRem : FileData := ⟨[10], 1⟩

/-- A file living under the local root in the fixtures. -/
def fdLoc : FileData := ⟨[20], 2⟩

/-- A metadata row for the fixtures. -/
def recA : FileRecord := ⟨1, 1, 1, "synced"⟩

/-- Mount point /mnt with a single mapping /data to subpath r. -/
def cfgData : Config := ⟨"/mnt", [⟨"/data", "r", []⟩]⟩

/-- Mapping /L to subpath r with no exclude patterns. -/
def cfgL : Config := ⟨"/mnt", [⟨"/L", "r", []⟩]⟩

/-- A one-entry walk of /L: one subdirectory d1 and one file f. -/
def walkL : List WalkEntry := [⟨"/L", ["d1"], ["f"]⟩]

/-- A world holding only the local file /L/f. -/
def wL : World := ⟨[("/L/f", fdLoc)], [], []⟩

/-- The oracle that fails exactly the makedirs call for /R/d1. -/
def failsD1 : FailSet := ⟨["/R/d1"], [], [], []⟩

/-- The walk table for the idempotence witness: /data contains the
two files a and b and no subdirectories. -/
def walkOfData : List (String × List WalkEntry) :=
  [("/data", [⟨"/data", [], ["a", "b"]⟩])]

/-- The world for the idempotence witness. -/
def wData : World := ⟨[("/data/a", fdRem), ("/data/b", fdLoc)], [], []⟩

/-! ## Theorems -/

/-! ### Association-list helper lemmas -/

theorem lookupA_insertA_self {α : Type} (l : List (String × α)) (k : String) (v : α) :
    lookupA (insertA l k v) k = some v := by
  simp [insertA, lookupA]

theorem lookupA_removeA_ne {α : Type} (l : List (String × α)) (k q : String)
    (h : q ≠ k) : lookupA (removeA l k) q = lookupA l q := by
  induction l with
  | nil => rfl
  | cons e rest ih =>
    by_cases hk : e.1 = k
    · have h1 : removeA (e :: rest) k = removeA rest k := by
        simp [removeA, hk]
      have hq : ¬ e.1 = q := by
        intro hq
        exact h (by rw [← hq]; exact hk)
      have h2 : lookupA (e :: rest) q = lookupA rest q := by
        simp [lookupA, hq]
      rw [h1, h2]
      exact ih
    · have h1 : removeA (e :: rest) k = e :: removeA rest k := by
        simp [removeA, hk]
      rw [h1]
      by_cases hq : e.1 = q
      · simp [lookupA, hq]
      · simp [lookupA, hq]
        exact ih

theorem lookupA_insertA_ne {α : Type} (l : List (String × α)) (k q : String) (v : α)
    (h : q ≠ k) : lookupA (insertA l k v) q = lookupA l q := by
  have hk : ¬ k = q := fun hkq => h hkq.symm
  simp [insertA, lookupA, hk]
  exact lookupA_removeA_ne l k q h

theorem lookupA_removeA_self {α : Type} (l : List (String × α)) (k : String) :
    lookupA (removeA l k) k = none := by
  induction l with
  | nil => rfl
  | cons e rest ih =>
    by_cases hk : e.1 = k
    · simpa [removeA, hk] using ih
    · simpa [removeA, lookupA, hk] using ih

/-! ### Frame lemmas for sync_file -/

theorem makedirsOp_files (fails : FailSet) (d : String) (w : World) :
    (makedirsOp fails d w).1.files = w.files := by
  unfold makedirsOp
  split <;> rfl

theorem makedirsOp_db (fails : FailSet) (d : String) (w : World) :
    (makedirsOp fails d w).1.db = w.db := by
  unfold makedirsOp
  split <;> rfl

/-- The engine never reads or writes the metadata rows while handling
an event: sync_file leaves the db component untouched for every
action, path and failure oracle. -/
theorem sync_file_db (cfg : Config) (fails : FailSet) (a : Action)
    (p : String) (d : Option String) (w : World) :
    (sync_file cfg fails a p d w).db = w.db := by
  unfold sync_file
  split
  · rfl
  · split
    · rfl
    · cases a <;>
        simp only [syncFileBody, andThen, makedirsOp, copy2Op, removeOp, moveOp] <;>
        (repeat' split) <;> simp_all

/-! ### Claim C10 -/

/-- C10: because the exclusion check runs before any action is
dispatched, sync_file is a complete no-op for every action, including
deleted and moved, whenever the path's filename matches an exclude
pattern: files, directories and metadata are all left unchanged, for
every failure oracle and destination argument. -/
theorem C10_sync_file_excluded_noop (cfg : Config) (fails : FailSet) (a : Action)
    (p : String) (d : Option String) (w : World)
    (h : shouldSyncFile cfg p = false) :
    sync_file cfg fails a p d w = w := by
  simp [sync_file, h]

/-- Witness for C10: with pattern *.tmp configured, a Deleted event
for /data/a.tmp leaves a world that still holds the remote file
/mnt/r/a.tmp completely unchanged. -/
theorem C10_sync_file_excluded_noop_witness :
    shouldSyncFile ⟨"/mnt", [⟨"/data", "r", ["*.tmp"]⟩]⟩ "/data/a.tmp" = false ∧
    sync_file ⟨"/mnt", [⟨"/data", "r", ["*.tmp"]⟩]⟩ noFail .deleted "/data/a.tmp" none
        ⟨[("/mnt/r/a.tmp", fdRem)], [], []⟩
      = ⟨[("/mnt/r/a.tmp", fdRem)], [], []⟩ :=
  ⟨by decide,
   C10_sync_file_excluded_noop ⟨"/mnt", [⟨"/data", "r", ["*.tmp"]⟩]⟩ noFail .deleted
     "/data/a.tmp" none ⟨[("/mnt/r/a.tmp", fdRem)], [], []⟩ (by decide)⟩

/-! ### Claim C1 -/

/-- C1: evaluating sync_file at a Moved event with both paths
resolvable shows the code diverging from the claim: with the mapping
/data to /mnt/r, local file /data/b (the move destination), remote
file /mnt/r/a (the counterpart of the move source) and a metadata row
for /data/a, handling Moved(/data/a, /data/b) leaves the remote
counterpart of the source in place, destroys the local destination
file by moving it to /mnt/r/b (remote_path holds dest_path, a local
path), and leaves the metadata rows untouched — the claim instead
requires /mnt/r/a to be renamed to /mnt/r/b and the store to end with
a record for the destination only. -/
theorem C1_moved_event_wrong_source :
    shouldSyncFile cfgData "/data/a" = true ∧
    getRemotePath cfgData "/data/a" = some "/mnt/r/a" ∧
    getRemotePath cfgData "/data/b" = some "/mnt/r/b" ∧
    sync_file cfgData noFail .moved "/data/a" (some "/data/b")
        ⟨[("/data/b", fdLoc), ("/mnt/r/a", fdRem)], [], [("/data/a", recA)]⟩
      = ⟨[("/mnt/r/b", fdLoc), ("/mnt/r/a", fdRem)], ["/mnt/r"], [("/data/a", recA)]⟩ := by
  decide

/-! ### Claim C4 -/

/-- Counterexample to C4: a Created event whose path passes
should_sync and resolves to /mnt/r/a is handled — the file is copied —
yet afterwards the Metadata Store holds no record for the path, where
the claim requires an upsert. -/
theorem C4_created_event_no_upsert :
    shouldSyncFile cfgData "/data/a" = true ∧
    getRemotePath cfgData "/data/a" = some "/mnt/r/a" ∧
    lookupA (sync_file cfgData noFail .created "/data/a" none
        ⟨[("/data/a", fdLoc)], [], []⟩).files "/mnt/r/a" = some fdLoc ∧
    (sync_file cfgData noFail .created "/data/a" none
        ⟨[("/data/a", fdLoc)], [], []⟩).db = [] := by
  decide

/-- C4 as amended: for a Created or Modified event whose path passes
should_sync and whose remote path resolves, when the parent creation
and the copy succeed, handling the event records the remote parent
directory, copies the file's contents and metadata to the remote path
(overwriting), and changes no other file; the Metadata Store is left
unchanged under every failure oracle (the engine performs no upsert). -/
theorem C4_created_event_copies_no_metadata (cfg : Config) (fails : FailSet)
    (a : Action) (w : World) (p rp : String) (fd : FileData)
    (ha : a = Action.created ∨ a = Action.modified)
    (hs : shouldSyncFile cfg p = true)
    (hr : getRemotePath cfg p = some rp)
    (hne : rp ≠ "")
    (hf : lookupA w.files p = some fd)
    (hm : dirname rp ∉ fails.mkdirFails)
    (hc : rp ∉ fails.copyFails) :
    (∀ fails2 : FailSet, (sync_file cfg fails2 a p none w).db = w.db) ∧
    lookupA (sync_file cfg fails a p none w).files rp = some fd ∧
    dirname rp ∈ (sync_file cfg fails a p none w).dirs ∧
    (∀ q, q ≠ rp →
      lookupA (sync_file cfg fails a p none w).files q = lookupA w.files q) := by
  have hres : resolveRemote cfg p none = some rp := by
    simp [resolveRemote, hr, hne]
  have hbody : sync_file cfg fails a p none w
      = { w with files := insertA w.files rp fd, dirs := dirname rp :: w.dirs } := by
    rcases ha with ha | ha <;>
      simp [sync_file, hs, hres, ha, syncFileBody, andThen, makedirsOp, hm,
        copy2Op, hf, hc]
  refine ⟨fun fails2 => sync_file_db cfg fails2 a p none w, ?_, ?_, ?_⟩
  · rw [hbody]
    exact lookupA_insertA_self w.files rp fd
  · rw [hbody]
    exact List.mem_cons_self _ _
  · intro q hq
    rw [hbody]
    exact lookupA_insertA_ne w.files rp q fd hq

/-- Witness for C4 as amended: the Created event of the counterexample
configuration satisfies every hypothesis, the copy lands at /mnt/r/a,
and the metadata rows stay empty. -/
theorem C4_created_event_copies_no_metadata_witness :
    (∀ fails2 : FailSet,
      (sync_file cfgData fails2 .created "/data/a" none
        ⟨[("/data/a", fdLoc)], [], []⟩).db = (⟨[("/data/a", fdLoc)], [], []⟩ : World).db) ∧
    lookupA (sync_file cfgData noFail .created "/data/a" none
        ⟨[("/data/a", fdLoc)], [], []⟩).files "/mnt/r/a" = some fdLoc ∧
    dirname "/mnt/r/a" ∈ (sync_file cfgData noFail .created "/data/a" none
        ⟨[("/data/a", fdLoc)], [], []⟩).dirs ∧
    (∀ q, q ≠ "/mnt/r/a" →
      lookupA (sync_file cfgData noFail .created "/data/a" none
          ⟨[("/data/a", fdLoc)], [], []⟩).files q
        = lookupA (⟨[("/data/a", fdLoc)], [], []⟩ : World).files q) :=
  C4_created_event_copies_no_metadata cfgData noFail .created
    ⟨[("/data/a", fdLoc)], [], []⟩ "/data/a" "/mnt/r/a" fdLoc (Or.inl rfl)
    (by decide) (by decide) (by decide) (by decide) (by decide) (by decide)

/-! ### Claim C7 -/

/-- Counterexample to C7, refuting it on two points.  First, a Deleted
event for a previously synced path removes the remote file, but the
Metadata Store record for the path survives, where the claim requires
that afterwards neither exists.  Second, the claim quantifies over
every Deleted event whose remote path is resolvable, but the engine
gates all actions behind should_sync: a Deleted event for the excluded
filename a.log, whose remote path is resolvable and whose remote file
exists, is a complete no-op, so the remote file survives too. -/
theorem C7_deleted_event_record_kept :
    shouldSyncFile cfgData "/data/a" = true ∧
    getRemotePath cfgData "/data/a" = some "/mnt/r/a" ∧
    lookupA (sync_file cfgData noFail .deleted "/data/a" none
        ⟨[("/mnt/r/a", fdRem)], [], [("/data/a", recA)]⟩).files "/mnt/r/a" = none ∧
    lookupA (sync_file cfgData noFail .deleted "/data/a" none
        ⟨[("/mnt/r/a", fdRem)], [], [("/data/a", recA)]⟩).db "/data/a" = some recA ∧
    shouldSyncFile ⟨"/mnt", [⟨"/data", "r", ["*.log"]⟩]⟩ "/data/a.log" = false ∧
    getRemotePath ⟨"/mnt", [⟨"/data", "r", ["*.log"]⟩]⟩ "/data/a.log"
      = some "/mnt/r/a.log" ∧
    sync_file ⟨"/mnt", [⟨"/data", "r", ["*.log"]⟩]⟩ noFail .deleted "/data/a.log" none
        ⟨[("/mnt/r/a.log", fdRem)], [], [("/data/a.log", recA)]⟩
      = ⟨[("/mnt/r/a.log", fdRem)], [], [("/data/a.log", recA)]⟩ := by
  decide

/-- C7 as amended: for every Deleted event whose path passes
should_sync and whose remote path is resolvable, when removal does not
fail, handling the event removes the remote file if it exists (and is
a no-op on the remote tree if it does not) — afterwards no file
remains at the remote path — changes no other file or directory, and
leaves the Metadata Store record for the path in place (the engine
performs no remove). -/
theorem C7_deleted_event_removes_remote_only (cfg : Config) (fails : FailSet)
    (w : World) (p rp : String)
    (hs : shouldSyncFile cfg p = true)
    (hr : getRemotePath cfg p = some rp)
    (hne : rp ≠ "")
    (hrm : rp ∉ fails.removeFails) :
    lookupA (sync_file cfg fails .deleted p none w).files rp = none ∧
    (sync_file cfg fails .deleted p none w).db = w.db ∧
    (sync_file cfg fails .deleted p none w).dirs = w.dirs ∧
    (∀ q, q ≠ rp →
      lookupA (sync_file cfg fails .deleted p none w).files q = lookupA w.files q) := by
  have hres : resolveRemote cfg p none = some rp := by
    simp [resolveRemote, hr, hne]
  by_cases hex : (lookupA w.files rp).isSome
  · have hbody : sync_file cfg fails .deleted p none w
        = { w with files := removeA w.files rp } := by
      simp [sync_file, hs, hres, syncFileBody, hex, removeOp, hrm]
    rw [hbody]
    exact ⟨lookupA_removeA_self w.files rp, rfl, rfl,
      fun q hq => lookupA_removeA_ne w.files rp q hq⟩
  · have hnone : lookupA w.files rp = none := by
      cases h : lookupA w.files rp with
      | none => rfl
      | some v => rw [h] at hex; simp at hex
    have hbody : sync_file cfg fails .deleted p none w = w := by
      simp [sync_file, hs, hres, syncFileBody, hex]
    rw [hbody]
    exact ⟨hnone, rfl, rfl, fun q _ => rfl⟩

/-- Witness for C7 as amended: the Deleted event of the
counterexample configuration satisfies every hypothesis. -/
theorem C7_deleted_event_removes_remote_only_witness :
    lookupA (sync_file cfgData noFail .deleted "/data/a" none
        ⟨[("/mnt/r/a", fdRem)], [], [("/data/a", recA)]⟩).files "/mnt/r/a" = none ∧
    (sync_file cfgData noFail .deleted "/data/a" none
        ⟨[("/mnt/r/a", fdRem)], [], [("/data/a", recA)]⟩).db
      = (⟨[("/mnt/r/a", fdRem)], [], [("/data/a", recA)]⟩ : World).db ∧
    (sync_file cfgData noFail .deleted "/data/a" none
        ⟨[("/mnt/r/a", fdRem)], [], [("/data/a", recA)]⟩).dirs
      = (⟨[("/mnt/r/a", fdRem)], [], [("/data/a", recA)]⟩ : World).dirs ∧
    (∀ q, q ≠ "/mnt/r/a" →
      lookupA (sync_file cfgData noFail .deleted "/data/a" none
          ⟨[("/mnt/r/a", fdRem)], [], [("/data/a", recA)]⟩).files q
        = lookupA (⟨[("/mnt/r/a", fdRem)], [], [("/data/a", recA)]⟩ : World).files q) :=
  C7_deleted_event_removes_remote_only cfgData noFail
    ⟨[("/mnt/r/a", fdRem)], [], [("/data/a", recA)]⟩ "/data/a" "/mnt/r/a"
    (by decide) (by decide) (by decide) (by decide)

/-! ### Claim C2 -/

/-- Counterexample to C2: for a path whose file no longer exists on
disk, needs_sync returns false both when a record exists — the claim
requires true — and when no record exists at all — the claim's
"true when no record exists" clause likewise requires true. -/
theorem C2_needs_sync_missing_file_false :
    lookupA ([] : List (String × FileData)) "/data/f" = none ∧
    lookupA [("/data/f", recA)] "/data/f" = some recA ∧
    needs_sync [] [("/data/f", recA)] "/data/f" = false ∧
    needs_sync [] [] "/data/f" = false := by
  decide

/-- C2 as amended: needs_sync returns false whenever the file does not
exist on disk, whether or not a record exists; for an existing file it
returns true when no record exists, and otherwise true exactly when
the live mtime is strictly greater than the record's modified_time or
the live size differs from the record's size. -/
theorem C2_needs_sync_characterization (fs : List (String × FileData))
    (db : List (String × FileRecord)) (p : String) :
    needs_sync fs db p = true ↔
      ∃ fd, lookupA fs p = some fd ∧
        (get_file_metadata db p = none ∨
         ∃ r, get_file_metadata db p = some r ∧
           (r.modified_time < fd.mtime ∨ fd.content.length ≠ r.size)) := by
  unfold needs_sync
  cases hf : lookupA fs p with
  | none => simp
  | some fd =>
    cases hm : get_file_metadata db p with
    | none => simp
    | some r => simp [Bool.or_eq_true, decide_eq_true_iff]

/-! ### Claim C3 -/

/-- C3: evaluating update_file_metadata at any existing local file
shows the store is left unchanged — in particular no record is
inserted or updated, where the claim requires a record with the file's
current mtime and size afterwards.  The function's body evaluates
time.time() for the last_synced column, but metadata_db.py never
imports the time module, so a NameError is raised before either SQL
statement runs and the catch-all except leaves the store untouched. -/
theorem C3_update_file_metadata_store_unchanged (fs : List (String × FileData))
    (db : List (String × FileRecord)) (p : String) (fd : FileData)
    (h : lookupA fs p = some fd) :
    update_file_metadata fs db p = db := by
  simp [update_file_metadata, h]

/-- Witness for C3: updating the metadata of the existing file /data/f
into an empty store leaves the store empty. -/
theorem C3_update_file_metadata_store_unchanged_witness :
    update_file_metadata [("/data/f", fdLoc)] [] "/data/f" = [] :=
  C3_update_file_metadata_store_unchanged [("/data/f", fdLoc)] [] "/data/f" fdLoc
    (by decide)

/-! ### Claim C5 -/

theorem patternExcludes_iff (pat n : String) :
    patternExcludes pat n = true ↔ ExcludesP pat n := by
  unfold patternExcludes ExcludesP
  split_ifs with h1 h2
  · simp [h1]
  · simp [h1, h2]
  · simp [h1, h2, decide_eq_true_iff]

/-- C5: should_sync is evaluated against the filename only, scanning
the exclude_patterns of every configured mapping; it returns false
exactly when some pattern of some mapping matches the basename, where
a pattern beginning with * matches on the filename's suffix, a
pattern ending with * matches on its prefix, and any other pattern
only on exact equality.  The specification's concrete examples hold:
*.tmp excludes a.tmp, cache* excludes cache_1.txt, and the exact
pattern secret.txt excludes secret.txt but not secret.txt.bak. -/
theorem C5_should_sync_policy :
    (∀ (cfg : Config) (p : String),
      shouldSyncFile cfg p = false ↔
        ∃ d ∈ cfg.sync_directories, ∃ pat ∈ d.exclude_patterns,
          ExcludesP pat (basename p)) ∧
    shouldSyncFile ⟨"/mnt", [⟨"/d", "r", ["*.tmp"]⟩]⟩ "/d/a.tmp" = false ∧
    shouldSyncFile ⟨"/mnt", [⟨"/d", "r", ["cache*"]⟩]⟩ "/d/cache_1.txt" = false ∧
    shouldSyncFile ⟨"/mnt", [⟨"/d", "r", ["secret.txt"]⟩]⟩ "/d/secret.txt" = false ∧
    shouldSyncFile ⟨"/mnt", [⟨"/d", "r", ["secret.txt"]⟩]⟩ "/d/secret.txt.bak" = true := by
  refine ⟨?_, by decide, by decide, by decide, by decide⟩
  intro cfg p
  simp [shouldSyncFile, List.any_eq_true, patternExcludes_iff]

/-! ### Claim C6 -/

theorem findRemote_eq_findFirst (mount : String) (ds : List DirConfig) (p : String) :
    findRemote mount ds p =
      (ds.find? (fun d => strStartsWith p d.local_path)).map
        (fun d => joinPath (joinPath mount d.remote_path) (relpath p d.local_path)) := by
  induction ds with
  | nil => rfl
  | cons d rest ih =>
    by_cases h : strStartsWith p d.local_path = true
    · simp [findRemote, h, List.find?_cons]
    · have hb : strStartsWith p d.local_path = false := eq_false_of_ne_true h
      simp [findRemote, hb, List.find?_cons, ih]

/-- C6: remote_path scans the mappings in configuration order and the
first mapping whose local_root is a string prefix of the path wins;
the result is mount_point joined with the mapping's remote subpath
joined with the path taken relative to the local_root, and it is
absent when no mapping's local_root is a prefix.  The partial-prefix
behaviour is exhibited concretely: /data matches /database/x, giving
relative path ../database/x under the mapping's remote directory,
while /other/x matches nothing. -/
theorem C6_get_remote_path_first_match :
    (∀ (cfg : Config) (p : String),
      getRemotePath cfg p =
        (cfg.sync_directories.find? (fun d => strStartsWith p d.local_path)).map
          (fun d => joinPath (joinPath cfg.mount_point d.remote_path)
            (relpath p d.local_path))) ∧
    getRemotePath cfgData "/database/x" = some "/mnt/r/../database/x" ∧
    relpath "/database/x" "/data" = "../database/x" ∧
    getRemotePath cfgData "/other/x" = none := by
  refine ⟨?_, by decide, by decide, by decide⟩
  intro cfg p
  exact findRemote_eq_findFirst cfg.mount_point cfg.sync_directories p

/-! ### Claim C8 -/

theorem andThen_of_ok (r : World × Bool) (f : World → World × Bool)
    (h : r.2 = false) : andThen r f = f r.1 := by
  simp [andThen, h]

theorem andThen_ok (w : World) (f : World → World × Bool) :
    andThen (w, false) f = f w := rfl

theorem syncEntryDirs_ok (fails : FailSet) (localDir remoteDir root : String)
    (h : fails.mkdirFails = []) :
    ∀ (ds : List String) (w : World),
      (syncEntryDirs fails localDir remoteDir root ds w).2 = false := by
  intro ds
  induction ds with
  | nil => intro w; rfl
  | cons name rest ih =>
    intro w
    have hm : makedirsOp fails (joinPath remoteDir (relpath (joinPath root name) localDir)) w
        = ({w with dirs := joinPath remoteDir (relpath (joinPath root name) localDir) :: w.dirs},
           false) := by
      simp [makedirsOp, h]
    simp only [syncEntryDirs, hm, andThen_ok]
    exact ih _

theorem syncEntries_ok (cfg : Config) (fails : FailSet) (localDir remoteDir : String)
    (h : fails.mkdirFails = []) :
    ∀ (es : List WalkEntry) (w : World),
      (syncEntries cfg fails localDir remoteDir es w).2 = false := by
  intro es
  induction es with
  | nil => intro w; rfl
  | cons e rest ih =>
    intro w
    simp only [syncEntries,
      andThen_of_ok _ _ (syncEntryDirs_ok fails localDir remoteDir e.root h e.dirs w)]
    exact ih _

/-- Counterexample to C8: in a walk of /L containing the subdirectory
d1 and the file f, a failing makedirs for the remote directory /R/d1
is not wrapped, so it aborts the remainder of the walk: the raised
flag escapes sync_directory and the file f — which passes should_sync,
exists locally, and is synced to /R/f when no failure occurs — is
never copied. -/
theorem C8_walk_mkdir_failure_aborts :
    (sync_directory cfgL failsD1 walkL "/L" "/R" wL).2 = true ∧
    lookupA (sync_directory cfgL failsD1 walkL "/L" "/R" wL).1.files "/R/f" = none ∧
    shouldSyncFile cfgL "/L/f" = true ∧
    lookupA wL.files "/L/f" = some fdLoc ∧
    (sync_directory cfgL noFail walkL "/L" "/R" wL).2 = false ∧
    lookupA (sync_directory cfgL noFail walkL "/L" "/R" wL).1.files "/R/f" = some fdLoc := by
  decide

/-- C8 as amended: the per-file operations (copy, remove, move, and
the mkdir calls inside sync_file) are wrapped so a single file's
failure is caught and processing continues, and for every sequence of
events sync_file totalises its failures; but the directory-creation
calls issued by sync_directory itself are not wrapped.  Consequently a
directory walk can only abort through a failing makedirs of
sync_directory: under any oracle that fails no mkdir, the walk always
runs to completion, whatever copy, remove or move failures occur. -/
theorem C8_sync_directory_aborts_only_on_mkdir (cfg : Config) (fails : FailSet)
    (walk : List WalkEntry) (localDir remoteDir : String) (w : World)
    (h : fails.mkdirFails = []) :
    (sync_directory cfg fails walk localDir remoteDir w).2 = false := by
  have hm : makedirsOp fails remoteDir w
      = ({w with dirs := remoteDir :: w.dirs}, false) := by
    simp [makedirsOp, h]
  simp only [sync_directory, hm, andThen_ok]
  exact syncEntries_ok cfg fails localDir remoteDir h walk _

/-- Witness for C8 as amended: with an oracle that fails the copy to
/R/f but no mkdir, the same walk as in the counterexample completes
without the raised flag. -/
theorem C8_sync_directory_aborts_only_on_mkdir_witness :
    (sync_directory cfgL ⟨[], ["/R/f"], [], []⟩ walkL "/L" "/R" wL).2 = false :=
  C8_sync_directory_aborts_only_on_mkdir cfgL ⟨[], ["/R/f"], [], []⟩ walkL "/L" "/R" wL rfl

/-! ### Claim C9: effect-list lemmas -/

theorem applyOps_append (a b : List Op) (w : World) :
    applyOps (a ++ b) w = applyOps b (applyOps a w) := by
  induction a generalizing w with
  | nil => rfl
  | cons op rest ih =>
    simp only [List.cons_append, applyOps]
    exact ih _

theorem applyOps_db (ops : List Op) (w : World) :
    (applyOps ops w).db = w.db := by
  induction ops generalizing w with
  | nil => rfl
  | cons op rest ih =>
    cases op <;> simpa [applyOps, applyOp] using ih _

theorem applyOps_files_lookup (ops : List Op) (w : World) (p : String) :
    lookupA (applyOps ops w).files p =
      (match lastWrite ops p with
       | some fd => some fd
       | none => lookupA w.files p) := by
  induction ops generalizing w with
  | nil => rfl
  | cons op rest ih =>
    cases op with
    | mkdir d =>
      simp only [applyOps, applyOp, lastWrite]
      exact ih _
    | write q fd =>
      simp only [applyOps, applyOp, lastWrite]
      rw [ih _]
      cases hl : lastWrite rest p with
      | some r => rfl
      | none =>
        by_cases hq : q = p
        · subst hq
          simp [lookupA_insertA_self]
        · have hpq : p ≠ q := fun hpq => hq hpq.symm
          simp [hq, lookupA_insertA_ne _ _ _ _ hpq]

theorem applyOps_dirs_mem (ops : List Op) (w : World) (d : String) :
    d ∈ (applyOps ops w).dirs ↔ d ∈ mkdirsOf ops ∨ d ∈ w.dirs := by
  induction ops generalizing w with
  | nil => simp [applyOps, mkdirsOf]
  | cons op rest ih =>
    cases op with
    | mkdir x =>
      simp only [applyOps, applyOp, mkdirsOf]
      rw [ih _]
      simp [List.mem_cons]
      tauto
    | write q fd =>
      simp only [applyOps, applyOp, mkdirsOf]
      exact ih _

theorem applyOps_twice_files (ops : List Op) (w : World) (p : String) :
    lookupA (applyOps ops (applyOps ops w)).files p
      = lookupA (applyOps ops w).files p := by
  cases hl : lastWrite ops p <;> simp [applyOps_files_lookup, hl]

theorem applyOps_twice_dirs (ops : List Op) (w : World) (d : String) :
    d ∈ (applyOps ops (applyOps ops w)).dirs ↔ d ∈ (applyOps ops w).dirs := by
  simp only [applyOps_dirs_mem]
  tauto

theorem lastWrite_eq_none (ops : List Op) (p : String)
    (h : ∀ q fd, Op.write q fd ∈ ops → q ≠ p) : lastWrite ops p = none := by
  induction ops with
  | nil => rfl
  | cons op rest ih =>
    have hrest : lastWrite rest p = none :=
      ih (fun q fd hm => h q fd (List.mem_cons_of_mem _ hm))
    cases op with
    | mkdir d => simpa [lastWrite] using hrest
    | write q fd =>
      have hq : q ≠ p := h q fd (List.mem_cons_self _ _)
      simp [lastWrite, hrest, hq]

theorem applyOps_agrees (R : List String) (f0 : List (String × FileData))
    (ops : List Op) (w : World)
    (ha : Agrees R f0 w)
    (hw : ∀ q fd, Op.write q fd ∈ ops → q ∉ R) :
    Agrees R f0 (applyOps ops w) := by
  intro p hp
  have hnone : lastWrite ops p = none :=
    lastWrite_eq_none ops p (fun q fd hm hqp => (hqp ▸ hw q fd hm) hp)
  rw [applyOps_files_lookup, hnone]
  exact ha p hp

/-! ### Claim C9: characterizing the full-sync pass as its effect list -/

theorem syncFile_created_char (cfg : Config) (f0 : List (String × FileData))
    (w : World) (lp : String) (dp : Option String)
    (h : lookupA w.files lp = lookupA f0 lp) :
    sync_file cfg noFail .created lp dp w = applyOps (createdOps cfg f0 lp dp) w := by
  unfold sync_file createdOps
  cases hs : shouldSyncFile cfg lp with
  | false => simp [hs, applyOps]
  | true =>
    simp only [hs, Bool.not_true, if_true, if_false, Bool.false_eq_true, if_neg,
      Bool.true_eq_false, not_false_eq_true]
    cases hr : resolveRemote cfg lp dp with
    | none => simp [applyOps]
    | some rp =>
      simp only [syncFileBody, andThen, makedirsOp, noFail, List.contains,
        List.elem_nil, Bool.false_eq_true, if_false]
      have hlook : lookupA ({ w with dirs := dirname rp :: w.dirs } : World).files lp
          = lookupA f0 lp := h
      cases hf : lookupA f0 lp with
      | none =>
        simp only [copy2Op]
        rw [show lookupA ({ w with dirs := dirname rp :: w.dirs } : World).files lp
            = none from hlook.trans hf]
        simp [applyOps, applyOp]
      | some fd =>
        simp only [copy2Op]
        rw [show lookupA ({ w with dirs := dirname rp :: w.dirs } : World).files lp
            = some fd from hlook.trans hf]
        simp [applyOps, applyOp, noFail]

/-! ### Claim C9: the writes performed stay inside the candidate set -/

theorem entryDirOps_no_writes (localDir remoteDir root : String) (ds : List String)
    (q : String) (fd : FileData) :
    Op.write q fd ∉ entryDirOps localDir remoteDir root ds := by
  simp [entryDirOps, List.mem_map]

theorem entryFileOps_writes (cfg : Config) (f0 : List (String × FileData))
    (ld rd root : String) (names : List String) (q : String) (fd : FileData)
    (h : Op.write q fd ∈ entryFileOps cfg f0 ld rd root names) :
    q ∈ entryWritePaths cfg ld rd root names := by
  induction names with
  | nil => simpa [entryFileOps] using h
  | cons n rest ih =>
    simp only [entryFileOps] at h
    rcases List.mem_append.mp h with h1 | h1
    · apply List.mem_append_left
      cases hs : shouldSyncFile cfg (joinPath root n) with
      | false => rw [hs] at h1; simp at h1
      | true =>
        rw [hs] at h1
        simp only [if_true] at h1
        simp only [createdOps, hs, if_true] at h1
        cases hr : resolveRemote cfg (joinPath root n)
            (some (joinPath rd (relpath (joinPath root n) ld))) with
        | none => rw [hr] at h1; simp at h1
        | some rp =>
          rw [hr] at h1
          cases hf : lookupA f0 (joinPath root n) with
          | none => rw [hf] at h1; simp at h1
          | some fd2 =>
            rw [hf] at h1
            simp only [List.mem_cons, List.mem_singleton, List.not_mem_nil,
              or_false] at h1
            rcases h1 with h1 | h1
            · exact absurd h1 (by simp)
            · injection h1 with hq hfd
              simp [fileWriteTarget, hr, hq]
    · exact List.mem_append_right _ (ih h1)

theorem walkOps_writes (cfg : Config) (f0 : List (String × FileData))
    (ld rd : String) (es : List WalkEntry) (q : String) (fd : FileData)
    (h : Op.write q fd ∈ walkOps cfg f0 ld rd es) :
    q ∈ walkWritePaths cfg ld rd es := by
  induction es with
  | nil => simpa [walkOps] using h
  | cons e rest ih =>
    simp only [walkOps] at h
    rcases List.mem_append.mp h with h1 | h1
    · rcases List.mem_append.mp h1 with h2 | h2
      · exact absurd h2 (entryDirOps_no_writes ld rd e.root e.dirs q fd)
      · exact List.mem_append_left _ (entryFileOps_writes cfg f0 ld rd e.root e.files q fd h2)
    · exact List.mem_append_right _ (ih h1)

theorem fullOps_writes (cfg : Config) (f0 : List (String × FileData))
    (walkOf : List (String × List WalkEntry)) (ds : List DirConfig)
    (q : String) (fd : FileData)
    (h : Op.write q fd ∈ fullOps cfg f0 walkOf ds) :
    q ∈ fullWritePaths cfg walkOf ds := by
  induction ds with
  | nil => simpa [fullOps] using h
  | cons d rest ih =>
    simp only [fullOps] at h
    rcases List.mem_append.mp h with h1 | h1
    · cases hlw : lookupA walkOf d.local_path with
      | none => rw [hlw] at h1; simp at h1
      | some walk =>
        rw [hlw] at h1
        simp only [List.mem_cons] at h1
        rcases h1 with h1 | h1
        · exact absurd h1 (by simp)
        · apply List.mem_append_left
          rw [show (match lookupA walkOf d.local_path with
              | some walk =>
                walkWritePaths cfg d.local_path (joinPath cfg.mount_point d.remote_path) walk
              | none => []) = walkWritePaths cfg d.local_path
                (joinPath cfg.mount_point d.remote_path) walk from by rw [hlw]]
          exact walkOps_writes cfg f0 d.local_path
            (joinPath cfg.mount_point d.remote_path) walk q fd h1
    · exact List.mem_append_right _ (ih h1)

/-! ### Claim C9: the effect list depends on the file map only through
the walked local paths -/

theorem createdOps_congr (cfg : Config) (f1 f2 : List (String × FileData))
    (lp : String) (dp : Option String)
    (h : lookupA f1 lp = lookupA f2 lp) :
    createdOps cfg f1 lp dp = createdOps cfg f2 lp dp := by
  unfold createdOps
  rw [h]

theorem entryFileOps_congr (cfg : Config) (f1 f2 : List (String × FileData))
    (ld rd root : String) (names : List String)
    (h : ∀ p, p ∈ entryReadPaths root names → lookupA f1 p = lookupA f2 p) :
    entryFileOps cfg f1 ld rd root names = entryFileOps cfg f2 ld rd root names := by
  induction names with
  | nil => rfl
  | cons n rest ih =>
    have hhead : lookupA f1 (joinPath root n) = lookupA f2 (joinPath root n) := by
      apply h
      simp [entryReadPaths]
    have htail : ∀ p, p ∈ entryReadPaths root rest → lookupA f1 p = lookupA f2 p := by
      intro p hp
      apply h
      simp only [entryReadPaths, List.map_cons, List.mem_cons]
      exact Or.inr (by simpa [entryReadPaths] using hp)
    simp only [entryFileOps]
    rw [createdOps_congr cfg f1 f2 (joinPath root n) _ hhead, ih htail]

theorem walkOps_congr (cfg : Config) (f1 f2 : List (String × FileData))
    (ld rd : String) (es : List WalkEntry)
    (h : ∀ p, p ∈ walkReadPaths es → lookupA f1 p = lookupA f2 p) :
    walkOps cfg f1 ld rd es = walkOps cfg f2 ld rd es := by
  induction es with
  | nil => rfl
  | cons e rest ih =>
    have hhead : ∀ p, p ∈ entryReadPaths e.root e.files →
        lookupA f1 p = lookupA f2 p := by
      intro p hp
      apply h
      simp only [walkReadPaths]
      exact List.mem_append_left _ hp
    have htail : ∀ p, p ∈ walkReadPaths rest → lookupA f1 p = lookupA f2 p := by
      intro p hp
      apply h
      simp only [walkReadPaths]
      exact List.mem_append_right _ hp
    simp only [walkOps]
    rw [entryFileOps_congr cfg f1 f2 ld rd e.root e.files hhead, ih htail]

theorem fullOps_congr (cfg : Config) (f1 f2 : List (String × FileData))
    (walkOf : List (String × List WalkEntry)) (ds : List DirConfig)
    (h : ∀ p, p ∈ fullReadPaths walkOf ds → lookupA f1 p = lookupA f2 p) :
    fullOps cfg f1 walkOf ds = fullOps cfg f2 walkOf ds := by
  induction ds with
  | nil => rfl
  | cons d rest ih =>
    have htail : ∀ p, p ∈ fullReadPaths walkOf rest → lookupA f1 p = lookupA f2 p := by
      intro p hp
      apply h
      simp only [fullReadPaths]
      exact List.mem_append_right _ hp
    simp only [fullOps]
    split
    · rename_i walk hlw
      have hhead : ∀ p, p ∈ walkReadPaths walk → lookupA f1 p = lookupA f2 p := by
        intro p hp
        apply h
        simp only [fullReadPaths, hlw]
        exact List.mem_append_left _ hp
      rw [walkOps_congr cfg f1 f2 d.local_path (joinPath cfg.mount_point d.remote_path)
          walk hhead, ih htail]
    · simp only [List.nil_append]
      exact ih htail

/-! ### Claim C9: running the pass equals applying its effect list -/

theorem makedirsOp_noFail (d : String) (w : World) :
    makedirsOp noFail d w = ({w with dirs := d :: w.dirs}, false) := rfl

theorem syncEntryDirs_char (ld rd root : String) :
    ∀ (ds : List String) (w : World),
      syncEntryDirs noFail ld rd root ds w
        = (applyOps (entryDirOps ld rd root ds) w, false) := by
  intro ds
  induction ds with
  | nil => intro w; rfl
  | cons name rest ih =>
    intro w
    simp only [syncEntryDirs, makedirsOp_noFail, andThen_ok, entryDirOps,
      List.map_cons, applyOps, applyOp]
    exact ih _

theorem syncEntryFiles_char (cfg : Config) (f0 : List (String × FileData))
    (R : List String) (ld rd root : String) :
    ∀ (names : List String) (w : World),
      Agrees R f0 w →
      (∀ p, p ∈ entryReadPaths root names → p ∈ R) →
      (∀ q, q ∈ entryWritePaths cfg ld rd root names → q ∉ R) →
      syncEntryFiles cfg noFail ld rd root names w
        = applyOps (entryFileOps cfg f0 ld rd root names) w := by
  intro names
  induction names with
  | nil => intro w _ _ _; rfl
  | cons n rest ih =>
    intro w hA hR hW
    have hRrest : ∀ p, p ∈ entryReadPaths root rest → p ∈ R := by
      intro p hp
      apply hR
      simp only [entryReadPaths, List.map_cons, List.mem_cons]
      exact Or.inr (by simpa [entryReadPaths] using hp)
    have hWrest : ∀ q, q ∈ entryWritePaths cfg ld rd root rest → q ∉ R := by
      intro q hq
      apply hW
      simp only [entryWritePaths]
      exact List.mem_append_right _ hq
    cases hs : shouldSyncFile cfg (joinPath root n) with
    | false =>
      simp only [syncEntryFiles, hs, Bool.false_eq_true, if_false, entryFileOps,
        List.nil_append]
      exact ih _ hA hRrest hWrest
    | true =>
      have hlp : lookupA w.files (joinPath root n) = lookupA f0 (joinPath root n) := by
        apply hA
        apply hR
        simp [entryReadPaths]
      have hfile := syncFile_created_char cfg f0 w (joinPath root n)
        (some (joinPath rd (relpath (joinPath root n) ld))) hlp
      have hA1 : Agrees R f0
          (applyOps (createdOps cfg f0 (joinPath root n)
            (some (joinPath rd (relpath (joinPath root n) ld)))) w) := by
        apply applyOps_agrees R f0 _ w hA
        intro q fd hm
        apply hW
        apply entryFileOps_writes cfg f0 ld rd root (n :: rest) q fd
        simp only [entryFileOps, hs, if_true]
        exact List.mem_append_left _ hm
      simp only [syncEntryFiles, hs, if_true, entryFileOps]
      rw [hfile, applyOps_append]
      exact ih _ hA1 hRrest hWrest

theorem syncEntries_char (cfg : Config) (f0 : List (String × FileData))
    (R : List String) (ld rd : String) :
    ∀ (es : List WalkEntry) (w : World),
      Agrees R f0 w →
      (∀ p, p ∈ walkReadPaths es → p ∈ R) →
      (∀ q, q ∈ walkWritePaths cfg ld rd es → q ∉ R) →
      syncEntries cfg noFail ld rd es w
        = (applyOps (walkOps cfg f0 ld rd es) w, false) := by
  intro es
  induction es with
  | nil => intro w _ _ _; rfl
  | cons e rest ih =>
    intro w hA hR hW
    have hRfiles : ∀ p, p ∈ entryReadPaths e.root e.files → p ∈ R := by
      intro p hp
      apply hR
      simp only [walkReadPaths]
      exact List.mem_append_left _ hp
    have hWfiles : ∀ q, q ∈ entryWritePaths cfg ld rd e.root e.files → q ∉ R := by
      intro q hq
      apply hW
      simp only [walkWritePaths]
      exact List.mem_append_left _ hq
    have hRrest : ∀ p, p ∈ walkReadPaths rest → p ∈ R := by
      intro p hp
      apply hR
      simp only [walkReadPaths]
      exact List.mem_append_right _ hp
    have hWrest : ∀ q, q ∈ walkWritePaths cfg ld rd rest → q ∉ R := by
      intro q hq
      apply hW
      simp only [walkWritePaths]
      exact List.mem_append_right _ hq
    have hA1 : Agrees R f0 (applyOps (entryDirOps ld rd e.root e.dirs) w) := by
      apply applyOps_agrees R f0 _ w hA
      intro q fd hm
      exact absurd hm (entryDirOps_no_writes ld rd e.root e.dirs q fd)
    have hfiles := syncEntryFiles_char cfg f0 R ld rd e.root e.files
      (applyOps (entryDirOps ld rd e.root e.dirs) w) hA1 hRfiles hWfiles
    have hA2 : Agrees R f0 (applyOps (entryFileOps cfg f0 ld rd e.root e.files)
        (applyOps (entryDirOps ld rd e.root e.dirs) w)) := by
      apply applyOps_agrees R f0 _ _ hA1
      intro q fd hm
      exact hWfiles q (entryFileOps_writes cfg f0 ld rd e.root e.files q fd hm)
    simp only [syncEntries, syncEntryDirs_char, andThen_ok]
    rw [hfiles, ih _ hA2 hRrest hWrest]
    simp only [walkOps, applyOps_append]

theorem fullSyncGo_char (cfg : Config) (f0 : List (String × FileData))
    (R : List String) (walkOf : List (String × List WalkEntry)) :
    ∀ (ds : List DirConfig) (w : World),
      Agrees R f0 w →
      (∀ p, p ∈ fullReadPaths walkOf ds → p ∈ R) →
      (∀ q, q ∈ fullWritePaths cfg walkOf ds → q ∉ R) →
      fullSyncGo cfg noFail walkOf ds w
        = (applyOps (fullOps cfg f0 walkOf ds) w, false) := by
  intro ds
  induction ds with
  | nil => intro w _ _ _; rfl
  | cons d rest ih =>
    intro w hA hR hW
    have hRrest : ∀ p, p ∈ fullReadPaths walkOf rest → p ∈ R := by
      intro p hp
      apply hR
      simp only [fullReadPaths]
      exact List.mem_append_right _ hp
    have hWrest : ∀ q, q ∈ fullWritePaths cfg walkOf rest → q ∉ R := by
      intro q hq
      apply hW
      simp only [fullWritePaths]
      exact List.mem_append_right _ hq
    simp only [fullSyncGo, fullOps]
    split
    · rename_i walk hlw
      have hRwalk : ∀ p, p ∈ walkReadPaths walk → p ∈ R := by
        intro p hp
        apply hR
        simp only [fullReadPaths, hlw]
        exact List.mem_append_left _ hp
      have hWwalk : ∀ q,
          q ∈ walkWritePaths cfg d.local_path (joinPath cfg.mount_point d.remote_path)
            walk → q ∉ R := by
        intro q hq
        apply hW
        simp only [fullWritePaths, hlw]
        exact List.mem_append_left _ hq
      have hA0 : Agrees R f0
          ({w with dirs := joinPath cfg.mount_point d.remote_path :: w.dirs}) :=
        fun p hp => hA p hp
      have hentries := syncEntries_char cfg f0 R d.local_path
        (joinPath cfg.mount_point d.remote_path) walk
        ({w with dirs := joinPath cfg.mount_point d.remote_path :: w.dirs})
        hA0 hRwalk hWwalk
      have hA2 : Agrees R f0
          (applyOps (walkOps cfg f0 d.local_path
            (joinPath cfg.mount_point d.remote_path) walk)
            ({w with dirs := joinPath cfg.mount_point d.remote_path :: w.dirs})) := by
        apply applyOps_agrees R f0 _ _ hA0
        intro q fd hm
        exact hWwalk q (walkOps_writes cfg f0 d.local_path
          (joinPath cfg.mount_point d.remote_path) walk q fd hm)
      simp only [sync_directory, makedirsOp_noFail, andThen_ok]
      rw [hentries, andThen_ok, ih _ hA2 hRrest hWrest]
      simp only [List.cons_append, List.append_eq, applyOps_append, applyOps, applyOp]
    · simp only [List.nil_append]
      exact ih _ hA hRrest hWrest

/-- C9: full_sync is idempotent on the remote tree.  For every
configuration, walk table and initial state in which the remote write
targets are disjoint from the walked local files (the remote mount
holds no walked local path, which is the premise of syncing onto a
separate remote tree), both runs complete without a raised exception
and the second run leaves exactly the file map and directory set of
the first: every path holds the same data and the same directories
exist, byte for byte. -/
theorem C9_full_sync_idempotent (cfg : Config)
    (walkOf : List (String × List WalkEntry)) (w : World)
    (hd : ∀ q, q ∈ fullWritePaths cfg walkOf cfg.sync_directories →
      q ∉ fullReadPaths walkOf cfg.sync_directories) :
    ∃ w1 w2,
      full_sync cfg noFail walkOf w = (w1, false) ∧
      full_sync cfg noFail walkOf w1 = (w2, false) ∧
      (∀ p, lookupA w2.files p = lookupA w1.files p) ∧
      (∀ d, d ∈ w2.dirs ↔ d ∈ w1.dirs) := by
  have hA : Agrees (fullReadPaths walkOf cfg.sync_directories) w.files w :=
    fun p _ => rfl
  have h1 : full_sync cfg noFail walkOf w
      = (applyOps (fullOps cfg w.files walkOf cfg.sync_directories) w, false) :=
    fullSyncGo_char cfg w.files (fullReadPaths walkOf cfg.sync_directories) walkOf
      cfg.sync_directories w hA (fun p hp => hp) hd
  have hA1 : Agrees (fullReadPaths walkOf cfg.sync_directories) w.files
      (applyOps (fullOps cfg w.files walkOf cfg.sync_directories) w) := by
    apply applyOps_agrees _ _ _ _ hA
    intro q fd hm
    exact hd q (fullOps_writes cfg w.files walkOf cfg.sync_directories q fd hm)
  have hA1self : Agrees (fullReadPaths walkOf cfg.sync_directories)
      (applyOps (fullOps cfg w.files walkOf cfg.sync_directories) w).files
      (applyOps (fullOps cfg w.files walkOf cfg.sync_directories) w) :=
    fun p _ => rfl
  have h2 := fullSyncGo_char cfg
    (applyOps (fullOps cfg w.files walkOf cfg.sync_directories) w).files
    (fullReadPaths walkOf cfg.sync_directories) walkOf cfg.sync_directories
    (applyOps (fullOps cfg w.files walkOf cfg.sync_directories) w)
    hA1self (fun p hp => hp) hd
  have hcongr : fullOps cfg
      (applyOps (fullOps cfg w.files walkOf cfg.sync_directories) w).files walkOf
      cfg.sync_directories
      = fullOps cfg w.files walkOf cfg.sync_directories :=
    fullOps_congr cfg _ _ walkOf cfg.sync_directories (fun p hp => hA1 p hp)
  rw [hcongr] at h2
  exact ⟨applyOps (fullOps cfg w.files walkOf cfg.sync_directories) w,
    applyOps (fullOps cfg w.files walkOf cfg.sync_directories)
      (applyOps (fullOps cfg w.files walkOf cfg.sync_directories) w),
    h1, h2,
    fun p => applyOps_twice_files (fullOps cfg w.files walkOf cfg.sync_directories) w p,
    fun d => applyOps_twice_dirs (fullOps cfg w.files walkOf cfg.sync_directories) w d⟩

/-- Witness for C9: the mapping /data to /mnt/r with local files
/data/a and /data/b satisfies the disjointness hypothesis, and the
double run is idempotent there. -/
theorem C9_full_sync_idempotent_witness :
    ∃ w1 w2,
      full_sync cfgData noFail walkOfData wData = (w1, false) ∧
      full_sync cfgData noFail walkOfData w1 = (w2, false) ∧
      (∀ p, lookupA w2.files p = lookupA w1.files p) ∧
      (∀ d, d ∈ w2.dirs ↔ d ∈ w1.dirs) :=
  C9_full_sync_idempotent cfgData walkOfData wData (by decide)

end Modsync
